import Mathlib

/-!
Verification development for the federal-register-agent repository.

We give a shallow embedding of the parts of the code the specification's
testable properties talk about:

* `src/pipeline/federal_register.py` — the sync pipeline
  (`fetch_documents` pagination and enrichment, `_compute_content_hash`,
  `process_documents` persistence with content-hash deduplication and the
  normalized agencies relation);
* `src/agent/federal_agent.py` — the retrieval layer (`_query_mysql`
  fulltext-with-fallback search and the `chat` intent gate).

Python dicts are modelled as association lists with a JSON value type,
MySQL tables as in-memory lists of rows, network and database failures as
explicit oracles, and `hashlib.sha256` of the canonical serialization is
modelled by the canonical serialization itself (sha256 is a function of its
input, so digest equalities/inequalities correspond to serialization
equalities/inequalities, up to hash collisions which the model ignores).
Floating-point threshold comparisons (0.33 / 0.18) are modelled over ℚ.
-/

namespace FedReg

mutual
/-- JSON values, as produced by `resp.json()` and consumed by `json.dumps`.
Objects are association lists of string keys (Python dicts); arrays and
objects carry their own list forms (`JList` / `JPairs`) so that all
functions on them are structurally recursive. -/
inductive JVal where
  | jnull : JVal
  | jbool : Bool → JVal
  | jnum : Int → JVal
  | jstr : String → JVal
  | jarr : JList → JVal
  | jobj : JPairs → JVal

inductive JList where
  | nil : JList
  | cons : JVal → JList → JList

inductive JPairs where
  | nil : JPairs
  | cons : String → JVal → JPairs → JPairs
end

def JList.toList : JList → List JVal
  | .nil => []
  | .cons v tl => v :: tl.toList

def JList.ofList : List JVal → JList
  | [] => .nil
  | v :: tl => .cons v (JList.ofList tl)

def JPairs.toList : JPairs → List (String × JVal)
  | .nil => []
  | .cons k v tl => (k, v) :: tl.toList

def JPairs.ofList : List (String × JVal) → JPairs
  | [] => .nil
  | (k, v) :: tl => .cons k v (JPairs.ofList tl)

def JList.isNil : JList → Bool
  | .nil => true
  | .cons _ _ => false

def JPairs.isNil : JPairs → Bool
  | .nil => true
  | .cons _ _ _ => false

/-- A document record: a Python dict (string keys, JSON values). -/
abbrev Record := List (String × JVal)

/-- A record as a JSON object value. -/
def JVal.ofRecord (r : Record) : JVal := .jobj (JPairs.ofList r)

/-- Minimal JSON string escaping (quote and backslash), as `json.dumps` does
with `ensure_ascii=False` for the characters relevant here. -/
def escapeString (s : String) : String :=
  s.toList.foldl (fun acc c =>
    if c = '"' then acc ++ "\\\""
    else if c = '\\' then acc ++ "\\\\"
    else acc.push c) ""

/-- The key order `sorted()` uses on the serialized items: `a.1 ≤ b.1` on
strings, computed as `¬ (b.1 < a.1)` over the character lists (code-point
lexicographic, as Python compares strings). -/
def keyLe (a b : String × String) : Bool := !decide (b.1.data < a.1.data)

mutual
/-- Model of `json.dumps(v, sort_keys=sortKeys, ensure_ascii=False)` with the
default separators. When `sortKeys` is true, object keys are serialized in
sorted order at every level (serializing each field first and then sorting
the key/serialized-value pairs by key agrees with sorting the fields by key
first, since the serialization of a value does not depend on its position). -/
def json_dumps_val (sortKeys : Bool) : JVal → String
  | .jnull => "null"
  | .jbool b => if b then "true" else "false"
  | .jnum n => toString n
  | .jstr s => "\"" ++ escapeString s ++ "\""
  | .jarr xs => "[" ++ String.intercalate ", " (json_dumps_list sortKeys xs) ++ "]"
  | .jobj kvs =>
      let items := json_dumps_pairs sortKeys kvs
      let items2 := if sortKeys then items.mergeSort keyLe else items
      "\x7b" ++
        String.intercalate ", "
          (items2.map (fun kv => "\"" ++ escapeString kv.1 ++ "\": " ++ kv.2)) ++
        "\x7d"

def json_dumps_list (sortKeys : Bool) : JList → List String
  | .nil => []
  | .cons v tl => json_dumps_val sortKeys v :: json_dumps_list sortKeys tl

def json_dumps_pairs (sortKeys : Bool) : JPairs → List (String × String)
  | .nil => []
  | .cons k v tl => (k, json_dumps_val sortKeys v) :: json_dumps_pairs sortKeys tl
end

/-- `json.dumps(v, ...)` on a JSON value. -/
def json_dumps (sortKeys : Bool) (v : JVal) : String :=
  json_dumps_val sortKeys v

/-- Model of Python `str()` on a parsed JSON value: exact for the scalar
cases the code meets (`str` of a parsed string/number/bool/None); container
reprs are approximated by their JSON serialization. -/
def pyStr : JVal → String
  | .jstr s => s
  | .jnum n => toString n
  | .jbool b => if b then "True" else "False"
  | .jnull => "None"
  | v => json_dumps false v

/-- Python truthiness of a JSON value (`if not x` / `x or y`). -/
def truthy : JVal → Bool
  | .jnull => false
  | .jbool b => b
  | .jnum n => n != 0
  | .jstr s => s != ""
  | .jarr xs => !xs.isNil
  | .jobj kvs => !kvs.isNil

/-- `s.lower()` (character-wise, as for the ASCII text involved here). -/
def py_lower (s : String) : String := String.mk (s.toList.map Char.toLower)

/-- `s.strip()`: drop leading and trailing whitespace. -/
def py_strip (s : String) : String :=
  String.mk (((s.toList.dropWhile Char.isWhitespace).reverse.dropWhile Char.isWhitespace).reverse)

/-- `s.startswith(p)`. -/
def py_startswith (s p : String) : Bool := p.toList.isPrefixOf s.toList

/-- `s[n:]` (character slicing). -/
def py_drop (s : String) (n : Nat) : String := String.mk (s.toList.drop n)

/-- `s.split(sep)` for a one-character separator (`'T'` / `'-'` here),
keeping empty pieces as Python does. -/
def splitOnChar (c : Char) (s : String) : List String :=
  (List.splitOnP (· == c) s.toList).map String.mk

/-- `int(s)` on an all-digits string. -/
def py_int (s : String) : Nat :=
  s.toList.foldl (fun acc c => acc * 10 + (c.toNat - 48)) 0

/-- `d.get(k)` with no default: `none` when the key is absent. -/
def dictGet (r : Record) (k : String) : Option JVal :=
  (r.find? (fun kv => kv.1 == k)).map (·.2)

/-- `d.get(k)` viewed as a JSON value, with Python's `None` for a missing key. -/
def pyGet (r : Record) (k : String) : JVal :=
  (dictGet r k).getD .jnull

/-- Python `a or b` on JSON values. -/
def py_or (a b : JVal) : JVal := if truthy a then a else b

/-- `doc.get('document_number') or doc.get('id')`, together with the
`if not doc_num: skip` truthiness test used both in `fetch_documents` and in
`process_documents`. -/
def resolved (doc : Record) : Option JVal :=
  let dn := py_or (pyGet doc "document_number") (pyGet doc "id")
  if truthy dn then some dn else none

/-- `_compute_content_hash`: `sha256(json.dumps(doc, sort_keys=True,
ensure_ascii=False).encode()).hexdigest()`. The digest is modelled by the
canonical serialization itself (sha256 is a deterministic function of it). -/
def compute_content_hash (doc : Record) : String :=
  json_dumps true (JVal.ofRecord doc)

/-- SQL coercion of a Python value bound as a statement parameter:
`None` becomes NULL, everything else its string form (the textual columns of
`documents` are VARCHAR/TEXT). -/
def sqlVal : JVal → Option String
  | .jnull => none
  | v => some (pyStr v)

/-- Days per month, with the Gregorian leap rule (as `datetime` validates). -/
def daysInMonth (y m : Nat) : Nat :=
  if m = 2 then (if (y % 4 = 0 ∧ y % 100 ≠ 0) ∨ y % 400 = 0 then 29 else 28)
  else if m = 4 ∨ m = 6 ∨ m = 9 ∨ m = 11 then 30 else 31

def isDigits (s : String) : Bool := s != "" && s.toList.all Char.isDigit

/-- Model of `datetime.datetime.strptime(s, '%Y-%m-%d')`: exactly four year
digits, one or two month/day digits, and a valid calendar date; `none` models
the raised `ValueError`. -/
def strptime_ymd (s : String) : Option (Nat × Nat × Nat) :=
  match splitOnChar '-' s with
  | [ys, ms, ds] =>
      if ys.length = 4 && isDigits ys && isDigits ms && ms.length ≤ 2
          && isDigits ds && ds.length ≤ 2 then
        let y := py_int ys
        let m := py_int ms
        let d := py_int ds
        if 1 ≤ y ∧ 1 ≤ m ∧ m ≤ 12 ∧ 1 ≤ d ∧ d ≤ daysInMonth y m then some (y, m, d)
        else none
      else none
  | _ => none

/-- The `publication_date` normalization in `process_documents`:
`str(doc.get('publication_date')).split('T')[0]` validated by `strptime`,
with `None` on a falsy field or a parse failure. -/
def parse_publication_date (doc : Record) : Option (Nat × Nat × Nat) :=
  let v := pyGet doc "publication_date"
  if truthy v then strptime_ymd ((splitOnChar 'T' (pyStr v)).headD "") else none

/-- A row of the `documents` table (see `_setup_database` for the schema and
`process_documents` for the tuple of bound values). `publication_date` is
kept as the parsed DATE; `agencies` as the parsed JSON value whose
`json.dumps` the column stores; `last_updated` is an abstract timestamp tick
set by the upsert. -/
structure DocRow where
  id : String
  document_number : Option String
  title : Option String
  abstract : Option String
  document_type : Option String
  publication_date : Option (Nat × Nat × Nat)
  start_page : Option String
  end_page : Option String
  page_length : Option String
  pdf_url : Option String
  html_url : Option String
  agencies : Option JVal
  excerpt : Option String
  full_text : Option String
  docket_ids : Option String
  cfr_references : Option String
  comments_close_on : Option String
  action : Option String
  raw_json : String
  content_hash : String
  last_updated : Nat

/-- A row of the `agencies` relation: `(document_id, name, raw_json)` with a
UNIQUE key on `(document_id, name)`. -/
structure AgencyRow where
  document_id : String
  name : String
  raw_json : String

/-- The persisted store: the `documents` table (unique on `id`) and the
`agencies` relation. -/
structure DB where
  documents : List DocRow
  agencies : List AgencyRow

/-- The tuple of column values bound by the upsert in `process_documents`. -/
def buildDocRow (doc : Record) (docNum : JVal) (h : String) (now : Nat) : DocRow where
  id := pyStr docNum
  document_number := sqlVal ((dictGet doc "document_number").getD (.jstr ""))
  title := sqlVal (pyGet doc "title")
  abstract := sqlVal (pyGet doc "abstract")
  document_type := sqlVal (py_or (pyGet doc "type") (pyGet doc "document_type"))
  publication_date := parse_publication_date doc
  start_page := sqlVal (pyGet doc "start_page")
  end_page := sqlVal (pyGet doc "end_page")
  page_length := sqlVal (pyGet doc "page_length")
  pdf_url := sqlVal (pyGet doc "pdf_url")
  html_url := sqlVal (pyGet doc "html_url")
  agencies := (let v := pyGet doc "agencies"; if truthy v then some v else none)
  excerpt := sqlVal (pyGet doc "excerpt")
  full_text := sqlVal (pyGet doc "full_text")
  docket_ids :=
    (let v := pyGet doc "docket_ids"
     if truthy v then some (json_dumps false v) else none)
  cfr_references :=
    (let v := pyGet doc "cfr_references"
     if truthy v then some (json_dumps false v) else none)
  comments_close_on := sqlVal (pyGet doc "comments_close_on")
  action := sqlVal (pyGet doc "action")
  raw_json := json_dumps false (JVal.ofRecord doc)
  content_hash := h
  last_updated := now

/-- `SELECT content_hash FROM documents WHERE id = %s`. -/
def storedHash (db : DB) (n : String) : Option String :=
  (db.documents.find? (fun r => r.id == n)).map (·.content_hash)

/-- `INSERT ... ON DUPLICATE KEY UPDATE` on the `documents` table: replace
the row with the same primary key, or append a new row. -/
def upsertDocRow (tbl : List DocRow) (row : DocRow) : List DocRow :=
  if tbl.any (fun r => r.id == row.id) then
    tbl.map (fun r => if r.id == row.id then row else r)
  else tbl ++ [row]

/-- `INSERT IGNORE INTO agencies`: insert unless a row with the same
`(document_id, name)` unique key exists; returns the number of rows added. -/
def insertIgnoreAgency (tbl : List AgencyRow) (a : AgencyRow) : List AgencyRow × Nat :=
  if tbl.any (fun r => r.document_id == a.document_id && r.name == a.name) then (tbl, 0)
  else (tbl ++ [a], 1)

/-- `agency.get('name') if isinstance(agency, dict) else str(agency)`. -/
def agencyNameOf (a : JVal) : JVal :=
  match a with
  | .jobj kvs => pyGet kvs.toList "name"
  | v => .jstr (pyStr v)

/-- The per-document agency loop of `process_documents`: iterate over the
document's agency list (skipped when the field is falsy or not a list), skip
falsy names, and `INSERT IGNORE` one row per `(document id, name)` pair.
`agencyFail dn name = true` models `cursor.execute` raising on that row; the
exception is caught and swallowed (no insert, loop continues). Returns the
new table and the number of rows actually inserted. -/
def insert_agencies (agencyFail : String → String → Bool) (docNum : JVal) (doc : Record)
    (tbl : List AgencyRow) : List AgencyRow × Nat :=
  let ags := match pyGet doc "agencies" with
    | .jarr items => items.toList
    | _ => []
  ags.foldl (fun acc a =>
    let name := agencyNameOf a
    if !truthy name then acc
    else if agencyFail (pyStr docNum) (pyStr name) then acc
    else
      let (tbl', n) := insertIgnoreAgency acc.1 ⟨pyStr docNum, pyStr name, json_dumps false a⟩
      (tbl', acc.2 + n)) (tbl, 0)

/-- Result of a `process_documents` run: the store, the `processed_count`
and `skipped_count` counters, and the number of rows written (upserts plus
agency rows actually inserted) — the claims' "row changes". -/
structure ProcResult where
  db : DB
  processed : Nat
  skipped : Nat
  writes : Nat

/-- The per-document body of the `process_documents` loop.
`failDoc doc = true` models the per-document `try` block raising (malformed
data, statement error, …): the exception is caught, `skipped_count`
increments, and the loop continues. Otherwise: skip (counted) when there is
no document number; compute the content hash; compare with the stored hash
for that id and skip silently when equal; else upsert all columns (stamping
`last_updated := now`) and best-effort insert agency rows. -/
def process_one (failDoc : Record → Bool) (agencyFail : String → String → Bool) (now : Nat)
    (st : ProcResult) (doc : Record) : ProcResult :=
  if failDoc doc then { st with skipped := st.skipped + 1 }
  else
    match resolved doc with
    | none => { st with skipped := st.skipped + 1 }
    | some docNum =>
      let h := compute_content_hash doc
      if storedHash st.db (pyStr docNum) = some h then st
      else
        let row := buildDocRow doc docNum h now
        let docs' := upsertDocRow st.db.documents row
        let res := insert_agencies agencyFail docNum doc st.db.agencies
        { db := ⟨docs', res.1⟩, processed := st.processed + 1, skipped := st.skipped,
          writes := st.writes + 1 + res.2 }

/-- `process_documents`: one transaction folding the per-document body over
the batch, starting from zeroed counters. -/
def process_documents (db : DB) (docs : List Record) (failDoc : Record → Bool)
    (agencyFail : String → String → Bool) (now : Nat) : ProcResult :=
  docs.foldl (process_one failDoc agencyFail now) ⟨db, 0, 0, 0⟩

/-- Outcome of one `requests.get` against the listing endpoint.
`transientError` models `requests.HTTPError` / `requests.RequestException`
(retried with backoff); `fatalError` models any other exception (immediate
break). -/
inductive ApiResponse where
  | ok : JVal → ApiResponse
  | transientError : ApiResponse
  | fatalError : ApiResponse

/-- Observable outcome of the pagination loop in `fetch_documents`:
the accumulated shallow records, the page number of every request issued (in
order), and the `time.sleep` backoff durations taken. -/
structure FetchResult where
  all_shallow : List JVal
  requestedPages : List Nat
  sleeps : List Nat

/-- Structural validation of a listing response:
`isinstance(data, dict) and 'results' in data`, with the `results` value as
the page's record list. A present but non-array `results` value is also
treated as invalid by the model (the Python code would then misbehave on a
shape the upstream API never produces). -/
def getResults : JVal → Option (List JVal)
  | .jobj kvs =>
      match dictGet kvs.toList "results" with
      | some (.jarr xs) => some xs.toList
      | _ => none
  | _ => none

/-- `if max_pages and page > max_pages: break` (note Python truthiness:
`max_pages = 0` disables the cap). -/
def capReached (max_pages : Option Nat) (page : Nat) : Bool :=
  match max_pages with
  | some m => m != 0 && page > m
  | none => false

/-- The pagination `while True` loop of `fetch_documents`, fed by `net`
(the response to the i-th request issued, in order). State: accumulated
shallow records, current page, current retry count, request log, sleep log.
`fuel` bounds the unrolling (the Python loop can run unboundedly when every
page is full and no cap is set); `none` means fuel ran out before the loop
terminated. On a transient failure the same page is retried after sleeping
`2 ** retries` with the incremented count, until `retries >= max_retries`
aborts pagination; whatever was accumulated is always returned. -/
def fetch_documents_pages (net : Nat → ApiResponse) (per_page : Nat)
    (max_pages : Option Nat) (max_retries : Nat) :
    Nat → List JVal → Nat → Nat → List Nat → List Nat → Option FetchResult
  | 0, _, _, _, _, _ => none
  | fuel + 1, acc, page, retries, reqLog, sleeps =>
    if capReached max_pages page then some ⟨acc, reqLog, sleeps⟩
    else
      match net reqLog.length with
      | .fatalError => some ⟨acc, reqLog ++ [page], sleeps⟩
      | .transientError =>
          let r := retries + 1
          if r ≥ max_retries then some ⟨acc, reqLog ++ [page], sleeps⟩
          else
            fetch_documents_pages net per_page max_pages max_retries fuel
              acc page r (reqLog ++ [page]) (sleeps ++ [2 ^ r])
      | .ok data =>
          match getResults data with
          | none => some ⟨acc, reqLog ++ [page], sleeps⟩
          | some results =>
              if results.isEmpty then some ⟨acc, reqLog ++ [page], sleeps⟩
              else if results.length < per_page then
                some ⟨acc ++ results, reqLog ++ [page], sleeps⟩
              else
                fetch_documents_pages net per_page max_pages max_retries fuel
                  (acc ++ results) (page + 1) 0 (reqLog ++ [page]) sleeps

/-- `{**a, **b}`: keys of `a` in order with values overridden by `b` where
present, followed by the keys only in `b`. -/
def dictMerge (a b : Record) : Record :=
  a.map (fun kv => (kv.1, (dictGet b kv.1).getD kv.2)) ++
    b.filter (fun kv => (dictGet a kv.1).isNone)

/-- The enrichment stage of `fetch_documents`: for each shallow record with
a resolvable document number (`doc.get('document_number') or doc.get('id')`,
skipping falsy ones), fetch the detail record and merge it over the shallow
one; `detail dn = none` models a failed `fetch_full_document` (which returns
`{}`, caught internally) or a failed future, in both of which cases the
shallow record is kept unmodified. The thread pool's completion order is
modelled by submission order (the claims are order-independent). -/
def fetch_documents_enrich (detail : JVal → Option Record) (shallow : List Record) :
    List Record :=
  let submitted := shallow.filterMap (fun doc => (resolved doc).map (fun dn => (doc, dn)))
  submitted.map (fun dd =>
    match detail dd.2 with
    | some full => dictMerge dd.1 full
    | none => dd.1)

/-- SQL LIKE pattern matching over character lists: `%` matches any
sequence (any suffix of the subject continues the match), `_` matches
exactly one character, and `\` — MySQL's default escape — takes the
following pattern character literally (a trailing lone `\` is matched as a
literal backslash, MySQL's lenient reading). Structural on the pattern. -/
def likeMatch : List Char → List Char → Bool
  | [], s => s.isEmpty
  | p :: ps, s =>
    if p = '%' then s.tails.any (fun t => likeMatch ps t)
    else if p = '\\' then
      match ps with
      | c :: ps' =>
        (match s with
         | c' :: s' => c' == c && likeMatch ps' s'
         | [] => false)
      | [] => s == ['\\']
    else if p = '_' then
      (match s with
       | _ :: s' => likeMatch ps s'
       | [] => false)
    else
      (match s with
       | c' :: s' => c' == p && likeMatch ps s'
       | [] => false)

/-- `col LIKE pat` under the case-insensitive `utf8mb4_unicode_ci`
collation (modelled by lowercasing both sides before matching). -/
def sqlLike (col pat : String) : Bool :=
  likeMatch (py_lower pat).toList (py_lower col).toList

/-- `col LIKE pat` on a nullable column: NULL never matches. -/
def optLike (col : Option String) (pat : String) : Bool :=
  match col with
  | some s => sqlLike s pat
  | none => false

/-- The fallback WHERE clause of `_query_mysql`:
`title LIKE %s OR abstract LIKE %s OR excerpt LIKE %s OR full_text LIKE %s
OR raw_json LIKE %s`, each bound to the pattern `f"%{q}%"`. The query is
interpolated into the pattern **unescaped**, so `%`/`_`/`\` inside the
query act as LIKE metacharacters. -/
def rowMatchesFallback (q : String) (r : DocRow) : Bool :=
  let like := "%" ++ q ++ "%"
  optLike r.title like || optLike r.abstract like || optLike r.excerpt like ||
    optLike r.full_text like || sqlLike r.raw_json like

/-- Plain case-insensitive substring containment — the spec's description
of the fallback condition ("contains the query as a case-insensitive
substring"), to be compared with the LIKE semantics the code actually
gets. -/
def containsCI (hay q : String) : Bool :=
  (py_lower hay).toList.tails.any (fun t => (py_lower q).toList.isPrefixOf t)

/-- `containsCI` on a nullable column: NULL never matches. -/
def optContainsCI (col : Option String) (q : String) : Bool :=
  match col with
  | some s => containsCI s q
  | none => false

/-- Some searchable column of the row contains `q` as a case-insensitive
substring: the claim's reading of the fallback WHERE clause. -/
def rowMatchesSubstring (q : String) (r : DocRow) : Bool :=
  optContainsCI r.title q || optContainsCI r.abstract q || optContainsCI r.excerpt q ||
    optContainsCI r.full_text q || containsCI r.raw_json q

/-- `JSON_CONTAINS(agencies, JSON_OBJECT('name', a))`: some element of the
stored agency array is an object whose `name` member equals the string `a`
(object containment in MySQL JSON is member subset). NULL or non-array
columns do not match. -/
def agencyJsonContains (col : Option JVal) (a : String) : Bool :=
  match col with
  | some (.jarr items) =>
      items.toList.any (fun it =>
        match it with
        | .jobj kvs =>
            (match dictGet kvs.toList "name" with
             | some (.jstr s) => s == a
             | _ => false)
        | _ => false)
  | _ => false

/-- `if f and f.get("agency")`: the structured agency filter, ANDed with the
text condition, with Python truthiness on the filter value. -/
def agencyCond (filt : Option String) (r : DocRow) : Bool :=
  match filt with
  | some a => if a = "" then true else agencyJsonContains r.agencies a
  | none => true

/-- Numeric key of a DATE for comparisons. Months are at most 12 and days at
most 31, so the encoding is order-faithful. -/
def dateVal (d : Nat × Nat × Nat) : Nat := d.1 * 10000 + d.2.1 * 100 + d.2.2

/-- `ORDER BY publication_date DESC`: later dates first, NULLs last (MySQL
sorts NULLs first ascending, hence last descending). -/
def pubDateDesc (a b : DocRow) : Bool :=
  match a.publication_date, b.publication_date with
  | some x, some y => decide (dateVal y ≤ dateVal x)
  | some _, none => true
  | none, some _ => false
  | none, none => true

/-- `_query_mysql`: probe result `use_fulltext` says whether a FULLTEXT
index was found (false also when the probe raised); `ftMatch` is the opaque
`MATCH ... AGAINST ... IN NATURAL LANGUAGE MODE` predicate (its relevance
score is selected but never used for ordering). The query is stripped; a
non-empty query filters by fulltext match or, in fallback mode, by
case-insensitive substring over the five searchable columns; an empty query
passes every row. The agency filter is ANDed on, the result is ordered by
publication date descending and truncated to `limit`. -/
def query_mysql (use_fulltext : Bool) (ftMatch : String → DocRow → Bool)
    (table : List DocRow) (query : String) (filt : Option String) (lim : Nat) :
    List DocRow :=
  let q := py_strip query
  let textCond : DocRow → Bool :=
    if q != "" && use_fulltext then fun r => ftMatch q r
    else if q != "" then fun r => rowMatchesFallback q r
    else fun _ => true
  let filtered := table.filter (fun r => textCond r && agencyCond filt r)
  (filtered.mergeSort pubDateDesc).take lim

/-- The metadata snapshot consumed by the intent gate (`_get_help_metadata`):
top title keywords, agency names, document types. -/
structure HelpMeta where
  keywords : List String
  agencies : List String
  document_types : List String

/-- A character of a token: the `[A-Za-z0-9\-']` class of the gate's
`re.findall` (ASCII alphanumerics, hyphen, apostrophe). -/
def isTokChar (c : Char) : Bool :=
  ('a' ≤ c && c ≤ 'z') || ('A' ≤ c && c ≤ 'Z') || ('0' ≤ c && c ≤ '9') ||
    c == '-' || c == Char.ofNat 39

/-- Accumulator pass for the tokenizer: `cur` holds the (reversed) current
run of token characters. -/
def tokenizeAux : List Char → List Char → List (List Char)
  | [], cur => if cur.isEmpty then [] else [cur.reverse]
  | c :: rest, cur =>
    if isTokChar c then tokenizeAux rest (c :: cur)
    else if cur.isEmpty then tokenizeAux rest [] else cur.reverse :: tokenizeAux rest []

/-- `re.findall(r"[A-Za-z0-9\-']+", s)` over a character list: maximal runs
of token characters. -/
def tokenizeChars (cs : List Char) : List (List Char) := tokenizeAux cs []

/-- `re.findall(r"[A-Za-z0-9\-']+", s)` on an (already lowercased) string. -/
def tokenize (s : String) : List String :=
  (tokenizeChars s.toList).map (fun cs => String.mk cs)

/-- The domain vocabulary built in `chat`: the union of the tokens of every
cached keyword, agency name and document type, lowercased. -/
def domain_tokens (meta : HelpMeta) : List String :=
  ((meta.keywords ++ meta.agencies ++ meta.document_types).flatMap
    (fun k => tokenize (py_lower k))).dedup

/-- The distinct tokens of the input shared with the domain vocabulary:
`set(tokens) & domain_tokens`. -/
def overlap_tokens (meta : HelpMeta) (tokens : List String) : List String :=
  tokens.dedup.filter (fun t => (domain_tokens meta).contains t)

/-- `len(set(tokens) & domain_tokens) / max(1, len(set(tokens)))`, as an
exact rational (the Python code computes it in floating point; the
thresholds 0.33 and 0.18 are decimal literals, modelled exactly). -/
def overlap_ratio (meta : HelpMeta) (tokens : List String) : ℚ :=
  ((overlap_tokens meta tokens).length : ℚ) / (max 1 tokens.dedup.length : ℚ)

/-- `overlap_ratio >= t/100`, computed exactly by cross-multiplication
(`a/b ≥ t/100 ⟺ 100·a ≥ t·b` for the positive denominator `max 1 _`). -/
def ratio_ge (meta : HelpMeta) (tokens : List String) (t : Nat) : Bool :=
  100 * (overlap_tokens meta tokens).length ≥ t * max 1 tokens.dedup.length

theorem ratio_ge_iff (meta : HelpMeta) (tokens : List String) (t : Nat) :
    ratio_ge meta tokens t = true ↔ overlap_ratio meta tokens ≥ (t : ℚ) / 100 := by
  rw [ratio_ge, overlap_ratio, decide_eq_true_eq]
  show t * max 1 tokens.dedup.length ≤ 100 * (overlap_tokens meta tokens).length ↔
    (t : ℚ) / 100 ≤ ((overlap_tokens meta tokens).length : ℚ) / (max 1 tokens.dedup.length : ℚ)
  rw [div_le_div_iff₀ (by norm_num) (by positivity)]
  rw [mul_comm ((overlap_tokens meta tokens).length : ℚ) 100]
  constructor
  · intro h
    exact_mod_cast h
  · intro h
    exact_mod_cast h

/-- Observable outcome of `chat`: the prompt-for-input message, a usage
message, a delegation to `run(query, filters, limit)`, the help text, or the
fixed refusal message listing the command forms. -/
inductive ChatResult where
  | emptyPrompt : ChatResult
  | usage : String → ChatResult
  | runAgent : String → Option String → Nat → ChatResult
  | helpText : ChatResult
  | refusal : ChatResult
deriving DecidableEq, Repr

/-- `cmd_prefixes = ("search ", "find ", "recent", "help", "get ", "show ")`. -/
def cmd_prefix_list : List String := ["search ", "find ", "recent", "help", "get ", "show "]

/-- The command-prefix test of `chat`'s dispatch loop:
`lower == p.strip() or lower.startswith(p)` for some prefix `p`. -/
def matchesCmd (lower : String) : Bool :=
  cmd_prefix_list.any (fun p => lower == py_strip p || py_startswith lower p)

/-- `parts[1].isdigit()`. -/
def isdigit (s : String) : Bool := s != "" && s.toList.all Char.isDigit

/-- `msg.split()`: split on whitespace runs, dropping empty pieces. -/
def pySplitWs (s : String) : List String :=
  ((List.splitOnP Char.isWhitespace s.toList).map String.mk).filter (fun p => p ≠ "")

/-- The free-text heuristic at the end of `chat`: tokenize the lowercased
input, compute the distinct-token overlap ratio against the domain
vocabulary, and accept as a search query when the branch threshold is met
(`<= 2` raw tokens: 0.33, `> 2` raw tokens: 0.18); otherwise return the
fixed refusal message. -/
def chatHeuristic (meta : HelpMeta) (lower : String) : ChatResult :=
  let tokens := tokenize lower
  if tokens.isEmpty then .emptyPrompt
  else
    if tokens.length ≤ 2 ∧ ratio_ge meta tokens 33 then .runAgent lower none 25
    else if tokens.length > 2 ∧ ratio_ge meta tokens 18 then .runAgent lower none 25
    else .refusal

/-- `chat(message)`: empty input prompts for a query; an input matching a
command prefix runs the explicit-command chain (`recent <N>` with a numeric
check, `find <agency>`, `search <keyword>`, exact `help`, with usage
messages for malformed arguments, and a fall-through to the heuristic when
none of the command forms applies, e.g. for the `get `/`show ` prefixes);
everything else goes to the overlap heuristic. `run` defaults: no filters,
limit 25. -/
def chat (meta : HelpMeta) (message : String) : ChatResult :=
  let msg := py_strip message
  if msg = "" then .emptyPrompt
  else
    let lower := py_strip (py_lower msg)
    if matchesCmd lower then
      if py_startswith lower "recent" then
        match pySplitWs msg with
        | [_, n] => if isdigit n then .runAgent "" none (py_int n) else .usage "recent"
        | _ => .usage "recent"
      else if py_startswith lower "find " then
        let agency := py_strip (py_drop msg 5)
        if agency = "" then .usage "find" else .runAgent "" (some agency) 25
      else if py_startswith lower "search " then
        let q := py_strip (py_drop msg 7)
        if q = "" then .usage "search" else .runAgent q none 25
      else if lower = "help" then .helpText
      else chatHeuristic meta lower
    else chatHeuristic meta lower

/-! ## Helper lemmas -/

theorem keyLe_iff (a b : String × String) : keyLe a b = true ↔ a.1 ≤ b.1 := by
  simp [keyLe, not_lt, String.le_iff_toList_le]

theorem keyLe_trans : ∀ a b c : String × String,
    keyLe a b = true → keyLe b c = true → keyLe a c = true := by
  intro a b c h1 h2
  rw [keyLe_iff] at *
  exact le_trans h1 h2

theorem keyLe_total : ∀ a b : String × String, (keyLe a b || keyLe b a) = true := by
  intro a b
  simp only [Bool.or_eq_true, keyLe_iff]
  exact le_total a.1 b.1

/-- Sorting by key maps permuted dicts with distinct keys to the same list. -/
theorem mergeSort_key_perm_eq (l1 l2 : List (String × String)) (hp : l1.Perm l2)
    (hnd : (l1.map Prod.fst).Nodup) :
    l1.mergeSort keyLe = l2.mergeSort keyLe := by
  have hperm : (l1.mergeSort keyLe).Perm (l2.mergeSort keyLe) :=
    (List.mergeSort_perm l1 keyLe).trans (hp.trans (List.mergeSort_perm l2 keyLe).symm)
  have hnd2 : (l2.map Prod.fst).Nodup := ((hp.map Prod.fst).nodup_iff).mp hnd
  have key : ∀ (l : List (String × String)), (l.map Prod.fst).Nodup →
      List.Pairwise (fun a b : String × String => a.1 < b.1) (l.mergeSort keyLe) := by
    intro l hl
    have hsorted : List.Pairwise (fun a b => keyLe a b = true) (l.mergeSort keyLe) :=
      List.sorted_mergeSort keyLe_trans keyLe_total l
    have hndm : ((l.mergeSort keyLe).map Prod.fst).Nodup :=
      (((List.mergeSort_perm l keyLe).map Prod.fst).nodup_iff).mpr hl
    have hne : List.Pairwise (fun a b : String × String => a.1 ≠ b.1) (l.mergeSort keyLe) :=
      List.pairwise_map.mp hndm
    exact (hsorted.and hne).imp (fun h => by
      rw [keyLe_iff] at h
      exact lt_of_le_of_ne h.1 h.2)
  haveI : IsAntisymm (String × String) (fun a b => a.1 < b.1) :=
    ⟨fun a b h1 h2 => absurd h2 (lt_asymm h1)⟩
  exact List.eq_of_perm_of_sorted hperm (key l1 hnd) (key l2 hnd2)

/-! ## C2 — digest determinism -/

theorem json_dumps_pairs_ofList (sk : Bool) (f : Record) :
    json_dumps_pairs sk (JPairs.ofList f) =
      f.map (fun kv => (kv.1, json_dumps_val sk kv.2)) := by
  induction f with
  | nil => rfl
  | cons kv tl ih =>
    cases kv
    simp [JPairs.ofList, json_dumps_pairs, ih]

/-- C2: `_compute_content_hash` is a function of the record's key-value
content only: two document records holding the same fields (the same
key-value pairs, with the distinct keys of a Python dict) in any insertion
order produce the same content digest, because the canonical serialization
sorts keys. -/
theorem compute_content_hash_perm (f1 f2 : Record) (hp : f1.Perm f2)
    (hnd : (f1.map Prod.fst).Nodup) :
    compute_content_hash f1 = compute_content_hash f2 := by
  show json_dumps_val true (.jobj (JPairs.ofList f1)) =
    json_dumps_val true (.jobj (JPairs.ofList f2))
  rw [json_dumps_val, json_dumps_val]
  simp only [json_dumps_pairs_ofList, if_true]
  rw [mergeSort_key_perm_eq _ _ (hp.map _) (by simpa [List.map_map, Function.comp] using hnd)]

/-- Witness for C2 at a concrete two-field record and its reversal. -/
theorem compute_content_hash_perm_witness :
    compute_content_hash [("b", .jnum 1), ("a", .jstr "x")] =
      compute_content_hash [("a", .jstr "x"), ("b", .jnum 1)] :=
  compute_content_hash_perm _ _ (List.Perm.swap _ _ _) (by decide)

/-! ## C3 — pagination termination -/

/-- A stub listing page with `k` records. -/
def stub_page (k : Nat) : JVal :=
  JVal.ofRecord [("results", .jarr (JList.ofList (List.replicate k .jnull)))]

/-- Stub endpoint serving pages of sizes 100, 100, 45 to the first three
requests. -/
def c3_net : Nat → ApiResponse
  | 0 => .ok (stub_page 100)
  | 1 => .ok (stub_page 100)
  | 2 => .ok (stub_page 45)
  | _ + 3 => .fatalError

set_option maxRecDepth 20000 in
/-- C3: the pagination loop of `fetch_documents` stops requesting further
pages as soon as (a) a page returns fewer results than `per_page`
(accumulating that page first), (b) the configured `max_pages` cap is
exceeded, or (c) a response is structurally invalid (not a dict with a
`results` key); and (d) on stub pages of sizes [100, 100, 45] with
`per_page = 100` it requests exactly pages [1, 2, 3] and accumulates exactly
245 shallow records. -/
theorem fetch_pages_termination :
    (∀ (net : Nat → ApiResponse) (pp : Nat) (mp : Option Nat) (mr fuel : Nat)
        (acc : List JVal) (page retries : Nat) (reqLog sleeps : List Nat)
        (data : JVal) (results : List JVal),
      capReached mp page = false → net reqLog.length = .ok data →
      getResults data = some results → results.isEmpty = false → results.length < pp →
      fetch_documents_pages net pp mp mr (fuel + 1) acc page retries reqLog sleeps =
        some ⟨acc ++ results, reqLog ++ [page], sleeps⟩) ∧
    (∀ (net : Nat → ApiResponse) (pp : Nat) (mp : Option Nat) (mr fuel : Nat)
        (acc : List JVal) (page retries : Nat) (reqLog sleeps : List Nat),
      capReached mp page = true →
      fetch_documents_pages net pp mp mr (fuel + 1) acc page retries reqLog sleeps =
        some ⟨acc, reqLog, sleeps⟩) ∧
    (∀ (net : Nat → ApiResponse) (pp : Nat) (mp : Option Nat) (mr fuel : Nat)
        (acc : List JVal) (page retries : Nat) (reqLog sleeps : List Nat) (data : JVal),
      capReached mp page = false → net reqLog.length = .ok data → getResults data = none →
      fetch_documents_pages net pp mp mr (fuel + 1) acc page retries reqLog sleeps =
        some ⟨acc, reqLog ++ [page], sleeps⟩) ∧
    fetch_documents_pages c3_net 100 none 3 10 [] 1 0 [] [] =
      some ⟨List.replicate 245 .jnull, [1, 2, 3], []⟩ := by
  refine ⟨?_, ?_, ?_, ?_⟩
  · intro net pp mp mr fuel acc page retries reqLog sleeps data results hcap hnet hres hne hlt
    rw [fetch_documents_pages]
    simp [hcap, hnet, hres, hne, hlt]
  · intro net pp mp mr fuel acc page retries reqLog sleeps hcap
    rw [fetch_documents_pages]
    simp [hcap]
  · intro net pp mp mr fuel acc page retries reqLog sleeps data hcap hnet hres
    rw [fetch_documents_pages]
    simp [hcap, hnet, hres]
  · rfl

/-- Witness for C3's conditional parts, instantiated on the stub endpoint:
the third request (page 3, 45 < 100 records) ends pagination; a cap of 2
pages stops before requesting page 3; a fatal-free invalid response stops
with what was accumulated. -/
theorem fetch_pages_termination_witness :
    (fetch_documents_pages c3_net 100 none 3 1 (List.replicate 200 .jnull) 3 0 [1, 2] [] =
      some ⟨List.replicate 200 .jnull ++ List.replicate 45 .jnull, [1, 2, 3], []⟩) ∧
    (fetch_documents_pages c3_net 100 (some 2) 3 1 (List.replicate 200 .jnull) 3 0 [1, 2] [] =
      some ⟨List.replicate 200 .jnull, [1, 2], []⟩) ∧
    (fetch_documents_pages (fun _ => .ok .jnull) 100 none 3 1 [] 1 0 [] [] =
      some ⟨[], [1], []⟩) :=
  ⟨fetch_pages_termination.1 c3_net 100 none 3 0 _ 3 0 [1, 2] [] (stub_page 45) _
      rfl rfl rfl rfl (by decide),
   fetch_pages_termination.2.1 c3_net 100 (some 2) 3 0 _ 3 0 [1, 2] [] rfl,
   fetch_pages_termination.2.2.1 (fun _ => .ok .jnull) 100 none 3 0 [] 1 0 [] [] .jnull
      rfl rfl rfl⟩

/-! ## C4 — retry bound and partial success -/

/-- Stub endpoint: the first request succeeds with a full page of two
records (page size 2), every later request fails transiently. -/
def c4_net : Nat → ApiResponse
  | 0 => .ok (JVal.ofRecord [("results", .jarr (JList.ofList [.jstr "a", .jstr "b"]))])
  | _ + 1 => .transientError

/-- C4: on a transient failure the loop retries the same page number (the
recursive state keeps `page` and appends `page` to the request log again)
after a `2 ^ attempt` backoff; once the retry count reaches `max_retries`
pagination aborts but returns the already-accumulated records (partial
success, non-fatal). Concretely, with `max_retries = 3` and an endpoint
whose second page always fails, the request log is [1, 2, 2, 2] — exactly 3
attempts for the failing page — the two records of page 1 are still
returned, and the backoffs taken are [2, 4]. -/
theorem fetch_pages_retry_bound :
    (∀ (net : Nat → ApiResponse) (pp : Nat) (mp : Option Nat) (mr fuel : Nat)
        (acc : List JVal) (page retries : Nat) (reqLog sleeps : List Nat),
      capReached mp page = false → net reqLog.length = .transientError →
      retries + 1 < mr →
      fetch_documents_pages net pp mp mr (fuel + 1) acc page retries reqLog sleeps =
        fetch_documents_pages net pp mp mr fuel acc page (retries + 1)
          (reqLog ++ [page]) (sleeps ++ [2 ^ (retries + 1)])) ∧
    (∀ (net : Nat → ApiResponse) (pp : Nat) (mp : Option Nat) (mr fuel : Nat)
        (acc : List JVal) (page retries : Nat) (reqLog sleeps : List Nat),
      capReached mp page = false → net reqLog.length = .transientError →
      mr ≤ retries + 1 →
      fetch_documents_pages net pp mp mr (fuel + 1) acc page retries reqLog sleeps =
        some ⟨acc, reqLog ++ [page], sleeps⟩) ∧
    fetch_documents_pages c4_net 2 none 3 20 [] 1 0 [] [] =
      some ⟨[.jstr "a", .jstr "b"], [1, 2, 2, 2], [2, 4]⟩ := by
  refine ⟨?_, ?_, ?_⟩
  · intro net pp mp mr fuel acc page retries reqLog sleeps hcap hnet hlt
    rw [fetch_documents_pages]
    simp only [hcap, hnet, Bool.false_eq_true, if_false]
    rw [if_neg (by omega)]
  · intro net pp mp mr fuel acc page retries reqLog sleeps hcap hnet hge
    rw [fetch_documents_pages]
    simp only [hcap, hnet, Bool.false_eq_true, if_false]
    rw [if_pos (by omega)]
  · rfl

/-- Witness for C4's conditional parts on the always-failing stub: the
second attempt for page 2 re-requests page 2 with backoff 4, and the third
attempt aborts returning page 1's records. -/
theorem fetch_pages_retry_bound_witness :
    (fetch_documents_pages c4_net 2 none 3 2 [.jstr "a", .jstr "b"] 2 1 [1, 2] [2] =
      fetch_documents_pages c4_net 2 none 3 1 [.jstr "a", .jstr "b"] 2 2 [1, 2, 2] [2, 4]) ∧
    (fetch_documents_pages c4_net 2 none 3 1 [.jstr "a", .jstr "b"] 2 2 [1, 2, 2] [2, 4] =
      some ⟨[.jstr "a", .jstr "b"], [1, 2, 2, 2], [2, 4]⟩) :=
  ⟨fetch_pages_retry_bound.1 c4_net 2 none 3 1 _ 2 1 [1, 2] [2] rfl rfl (by decide),
   fetch_pages_retry_bound.2.1 c4_net 2 none 3 0 _ 2 2 [1, 2, 2] [2, 4] rfl rfl (by decide)⟩

/-! ## C7 — enrichment totality and merge rule -/

theorem length_filterMap_countP {α β : Type} (g : α → Option β) (l : List α) :
    (l.filterMap g).length = l.countP (fun a => (g a).isSome) := by
  induction l with
  | nil => rfl
  | cons x xs ih =>
    cases hx : g x <;> simp [List.filterMap_cons, List.countP_cons, hx, ih]

theorem find?_filter_keyless (a b : Record) (k : String) (h : dictGet a k = none) :
    List.find? (fun kv => kv.1 == k) (b.filter (fun kv => (dictGet a kv.1).isNone)) =
      List.find? (fun kv => kv.1 == k) b := by
  induction b with
  | nil => rfl
  | cons kv bs ih =>
    by_cases hk : kv.1 = k
    · have hcond : (dictGet a kv.1).isNone = true := by rw [hk, h]; rfl
      have hkb : (kv.1 == k) = true := by simpa using hk
      rw [List.filter_cons, if_pos hcond, List.find?_cons, List.find?_cons, hkb]
    · have hkb : (kv.1 == k) = false := by simpa using hk
      cases hcond : (dictGet a kv.1).isNone
      · rw [List.filter_cons, if_neg (by simp [hcond]), ih, List.find?_cons, hkb]
      · rw [List.filter_cons, if_pos hcond, List.find?_cons, List.find?_cons, hkb, ih]

/-- Python dict-merge lookup: a key of `{**a, **b}` resolves to `b`'s value
when `b` has the key, else to `a`'s. -/
theorem dictGet_dictMerge (a b : Record) (k : String) :
    dictGet (dictMerge a b) k = (dictGet b k).or (dictGet a k) := by
  rw [dictMerge, dictGet, List.find?_append, List.find?_map]
  have hcomp : ((fun kv : String × JVal => kv.1 == k) ∘
      (fun kv : String × JVal => (kv.1, (dictGet b kv.1).getD kv.2))) =
      fun kv : String × JVal => kv.1 == k := rfl
  rw [hcomp]
  cases ha : List.find? (fun kv : String × JVal => kv.1 == k) a with
  | some kv =>
    have hk : kv.1 = k := by simpa using List.find?_some ha
    subst hk
    have haa : dictGet a kv.1 = some kv.2 := by rw [dictGet, ha]; rfl
    cases hb : dictGet b kv.1 <;> simp [Option.or, hb, haa]
  | none =>
    have haa : dictGet a k = none := by rw [dictGet, ha]; rfl
    rw [find?_filter_keyless a b k haa]
    cases hb : List.find? (fun kv : String × JVal => kv.1 == k) b <;>
      simp [Option.or, dictGet, ha, hb]

/-- Counterexample to C7 as stated: a shallow record with no resolvable
document number (here the empty record, which has neither a truthy
`document_number` nor a truthy `id`) is dropped by the enrichment stage —
it does not appear in the output at all, so not "every input record appears
exactly once in the output". -/
theorem enrich_drops_unresolvable :
    fetch_documents_enrich (fun _ => none) [([] : Record)] = [] := rfl

/-- C7 (amended): every input record **with a resolvable document number**
appears exactly once in the enrichment output, in submission order: the
output is exactly the resolvable inputs each mapped to its merged record
(so the output length is the number of resolvable inputs, and each such
record contributes its merge — or itself unmodified when the detail fetch
failed). The merge rule is Python's `{**shallow, **detail}`: a key resolves
to the detail value when the detail record has the key, else to the shallow
value. -/
theorem enrich_totality_merge :
    (∀ (detail : JVal → Option Record) (shallow : List Record),
      fetch_documents_enrich detail shallow =
        shallow.filterMap (fun doc => (resolved doc).map (fun dn =>
          match detail dn with
          | some full => dictMerge doc full
          | none => doc))) ∧
    (∀ (detail : JVal → Option Record) (shallow : List Record),
      (fetch_documents_enrich detail shallow).length =
        shallow.countP (fun doc => (resolved doc).isSome)) ∧
    (∀ (detail : JVal → Option Record) (shallow : List Record) (doc : Record) (dn : JVal),
      doc ∈ shallow → resolved doc = some dn →
      (detail dn = none → doc ∈ fetch_documents_enrich detail shallow) ∧
      (∀ full, detail dn = some full →
        dictMerge doc full ∈ fetch_documents_enrich detail shallow)) ∧
    (∀ (a b : Record) (k : String),
      dictGet (dictMerge a b) k = (dictGet b k).or (dictGet a k)) := by
  have heq : ∀ (detail : JVal → Option Record) (shallow : List Record),
      fetch_documents_enrich detail shallow =
        shallow.filterMap (fun doc => (resolved doc).map (fun dn =>
          match detail dn with
          | some full => dictMerge doc full
          | none => doc)) := by
    intro detail shallow
    rw [fetch_documents_enrich, List.map_filterMap]
    refine List.filterMap_congr (fun doc _ => ?_)
    rw [Option.map_map]
    rfl
  refine ⟨heq, ?_, ?_, dictGet_dictMerge⟩
  · intro detail shallow
    rw [heq, length_filterMap_countP]
    refine List.countP_congr (fun doc _ => ?_)
    simp
  · intro detail shallow doc dn hmem hres
    constructor
    · intro hd
      rw [heq]
      refine List.mem_filterMap.mpr ⟨doc, hmem, ?_⟩
      rw [hres, Option.map_some', hd]
    · intro full hd
      rw [heq]
      refine List.mem_filterMap.mpr ⟨doc, hmem, ?_⟩
      rw [hres, Option.map_some', hd]

/-- Witness for C7's conditional part: a one-record batch where the detail
fetch fails keeps the shallow record, and one where it succeeds yields the
overlaid record (the detail `title` overwrites the shallow one). -/
theorem enrich_totality_merge_witness :
    ([("document_number", JVal.jstr "A"), ("title", JVal.jstr "x")] ∈
      fetch_documents_enrich (fun _ => none)
        [[("document_number", JVal.jstr "A"), ("title", JVal.jstr "x")]]) ∧
    (dictMerge [("document_number", JVal.jstr "A"), ("title", JVal.jstr "x")]
        [("title", JVal.jstr "full")] ∈
      fetch_documents_enrich (fun _ => some [("title", JVal.jstr "full")])
        [[("document_number", JVal.jstr "A"), ("title", JVal.jstr "x")]]) := by
  refine ⟨?_, ?_⟩
  · exact (enrich_totality_merge.2.2.1 (fun _ => none)
      [[("document_number", JVal.jstr "A"), ("title", JVal.jstr "x")]]
      [("document_number", JVal.jstr "A"), ("title", JVal.jstr "x")]
      (JVal.jstr "A") (by simp) rfl).1 rfl
  · exact (enrich_totality_merge.2.2.1 (fun _ => some [("title", JVal.jstr "full")])
      [[("document_number", JVal.jstr "A"), ("title", JVal.jstr "x")]]
      [("document_number", JVal.jstr "A"), ("title", JVal.jstr "x")]
      (JVal.jstr "A") (by simp) rfl).2 [("title", JVal.jstr "full")] rfl

/-! ## C5 — fallback search correctness and ordering policy -/

theorem pubDateDesc_trans : ∀ a b c : DocRow,
    pubDateDesc a b = true → pubDateDesc b c = true → pubDateDesc a c = true := by
  intro a b c h1 h2
  cases ha : a.publication_date <;> cases hb : b.publication_date <;>
    cases hc : c.publication_date <;>
    (simp_all [pubDateDesc]; try omega)

theorem pubDateDesc_total : ∀ a b : DocRow,
    (pubDateDesc a b || pubDateDesc b a) = true := by
  intro a b
  cases ha : a.publication_date <;> cases hb : b.publication_date <;>
    (simp_all [pubDateDesc]; try omega)

/-- Lowercasing never produces a LIKE metacharacter from a
non-metacharacter: `%`, `_` and `\` are outside both `A`–`Z` and its image
`a`–`z`. -/
theorem toLower_ne_meta (c : Char) (h : c ≠ '%' ∧ c ≠ '_' ∧ c ≠ '\\') :
    c.toLower ≠ '%' ∧ c.toLower ≠ '_' ∧ c.toLower ≠ '\\' := by
  rw [Char.toLower]
  split
  case isTrue hn =>
    have hv : (c.toNat + 32).isValidChar := Or.inl (by omega)
    have ht : (Char.ofNat (c.toNat + 32)).toNat = c.toNat + 32 := by
      rw [Char.ofNat, dif_pos hv]
      simp [Char.ofNatAux, Char.toNat, UInt32.toNat, UInt32.ofNatCore]
    have hn1 : Char.toNat '%' = 37 := by decide
    have hn2 : Char.toNat '_' = 95 := by decide
    have hn3 : Char.toNat '\\' = 92 := by decide
    refine ⟨fun he => ?_, fun he => ?_, fun he => ?_⟩ <;>
      (have hcn := congrArg Char.toNat he; rw [ht] at hcn) <;> omega
  case isFalse => exact h

/-- Characters of the lowercased string are lowercasings of characters of
the original, so metacharacter-freeness is preserved by `py_lower`. -/
theorem lower_chars_ne_meta (q : String)
    (h : ∀ c ∈ q.toList, c ≠ '%' ∧ c ≠ '_' ∧ c ≠ '\\') :
    ∀ c ∈ (py_lower q).toList, c ≠ '%' ∧ c ≠ '_' ∧ c ≠ '\\' := by
  intro c hc
  simp only [py_lower, String.toList, List.mem_map] at hc
  obtain ⟨a, ha, rfl⟩ := hc
  exact toLower_ne_meta a (h a ha)

/-- Unfolding: the empty pattern matches only the empty subject. -/
theorem likeMatch_nil_pat (s : List Char) : likeMatch [] s = s.isEmpty := by
  rw [likeMatch.eq_def]

/-- Unfolding: a leading `%` tries every suffix of the subject. -/
theorem likeMatch_pct (ps s : List Char) :
    likeMatch ('%' :: ps) s = s.tails.any (fun t => likeMatch ps t) := by
  rw [likeMatch.eq_def]
  rfl

/-- Unfolding: a literal pattern character never matches the empty
subject. -/
theorem likeMatch_lit_nil (p : Char) (ps : List Char) (h1 : p ≠ '%') (h2 : p ≠ '\\') :
    likeMatch (p :: ps) [] = false := by
  rw [likeMatch.eq_def]
  simp [h1, h2]

/-- Unfolding: a literal pattern character matches exactly itself at the
head of the subject. -/
theorem likeMatch_lit_cons (p : Char) (ps : List Char) (c' : Char) (s' : List Char)
    (h1 : p ≠ '%') (h2 : p ≠ '\\') (h3 : p ≠ '_') :
    likeMatch (p :: ps) (c' :: s') = (c' == p && likeMatch ps s') := by
  rw [likeMatch.eq_def]
  simp [h1, h2, h3]

/-- A metacharacter-free pattern segment followed by a single `%` matches a
subject iff the segment is literally a prefix of the subject. -/
theorem likeMatch_literal_pct : ∀ (L t : List Char),
    (∀ c ∈ L, c ≠ '%' ∧ c ≠ '_' ∧ c ≠ '\\') →
    likeMatch (L ++ ['%']) t = L.isPrefixOf t := by
  intro L
  induction L with
  | nil =>
    intro t _
    have hmem : ([] : List Char) ∈ t.tails := (List.mem_tails _ _).mpr List.nil_suffix
    rw [List.nil_append, likeMatch_pct]
    simp only [likeMatch_nil_pat]
    have hp0 : List.isPrefixOf ([] : List Char) t = true := by simp [List.isPrefixOf]
    rw [hp0]
    exact List.any_eq_true.mpr ⟨[], hmem, rfl⟩
  | cons c L ih =>
    intro t hpl
    obtain ⟨h1, h2, h3⟩ := hpl c (List.mem_cons_self c L)
    cases t with
    | nil =>
      rw [List.cons_append, likeMatch_lit_nil c (L ++ ['%']) h1 h3]
      simp [List.isPrefixOf]
    | cons c' t' =>
      rw [List.cons_append, likeMatch_lit_cons c (L ++ ['%']) c' t' h1 h3 h2,
        ih t' (fun x hx => hpl x (List.mem_cons_of_mem c hx))]
      have hpc : List.isPrefixOf (c :: L) (c' :: t') = (c == c' && List.isPrefixOf L t') := by
        simp [List.isPrefixOf]
      rw [hpc]
      by_cases he : c' = c
      · subst he; rfl
      · have he2 : ¬(c = c') := fun hh => he hh.symm
        rw [beq_eq_false_iff_ne.mpr he, beq_eq_false_iff_ne.mpr he2]

/-- The pattern `%L%` with metacharacter-free `L` matches a subject iff `L`
is a prefix of some suffix of the subject, i.e. a substring. -/
theorem likeMatch_wrap_pct (L hay : List Char)
    (hpl : ∀ c ∈ L, c ≠ '%' ∧ c ≠ '_' ∧ c ≠ '\\') :
    likeMatch ('%' :: (L ++ ['%'])) hay = hay.tails.any (fun t => L.isPrefixOf t) := by
  rw [likeMatch_pct]
  congr 1
  funext t
  exact likeMatch_literal_pct L t hpl

/-- For a metacharacter-free query the interpolated LIKE pattern `%q%`
degenerates to case-insensitive substring containment. -/
theorem sqlLike_plain (s q : String)
    (hpl : ∀ c ∈ q.toList, c ≠ '%' ∧ c ≠ '_' ∧ c ≠ '\\') :
    sqlLike s ("%" ++ q ++ "%") = containsCI s q := by
  have hpct : Char.toLower '%' = '%' := by decide
  have hdata : (py_lower ("%" ++ q ++ "%")).toList
      = '%' :: ((py_lower q).toList ++ ['%']) := by
    simp [py_lower, String.toList, String.data_append, hpct]
  rw [sqlLike, hdata, likeMatch_wrap_pct _ _ (lower_chars_ne_meta q hpl)]
  rfl

/-- Columnwise: for a metacharacter-free query the fallback WHERE clause
coincides with the spec's substring condition. -/
theorem rowMatchesFallback_plain (q : String) (r : DocRow)
    (hpl : ∀ c ∈ q.toList, c ≠ '%' ∧ c ≠ '_' ∧ c ≠ '\\') :
    rowMatchesFallback q r = rowMatchesSubstring q r := by
  have hopt : ∀ col : Option String, optLike col ("%" ++ q ++ "%") = optContainsCI col q := by
    intro col
    cases col with
    | none => rfl
    | some s => exact sqlLike_plain s q hpl
  simp only [rowMatchesFallback, rowMatchesSubstring, hopt, sqlLike_plain _ q hpl]

/-- C5 (corrected): for `_query_mysql` — (1) in fallback mode (no FULLTEXT
index found, or the probe failed) with a non-empty query **free of the LIKE
metacharacters `%`, `_` and `\`**, every returned row satisfies the
case-insensitive substring condition over title, abstract, excerpt, full
text and raw payload; without that restriction the claim fails, because the
query is interpolated unescaped into the pattern `f"%\x7bq\x7d%"` (see the
counterexample: the query `%` returns rows containing it nowhere); (2) in
**either** mode the returned rows are ordered by publication date
descending (relevance never orders, for any fulltext match predicate);
(3) the limit truncates that ordered result (at most `lim` rows); and
(4) when the limit is not exceeded, every row matching the interpolated
LIKE pattern is returned in fallback mode (matching affects inclusion
only). -/
theorem query_mysql_fallback_correct :
    (∀ (ftM : String → DocRow → Bool) (table : List DocRow) (q : String)
        (filt : Option String) (lim : Nat),
      py_strip q ≠ "" →
      (∀ c ∈ (py_strip q).toList, c ≠ '%' ∧ c ≠ '_' ∧ c ≠ '\\') →
      ∀ r ∈ query_mysql false ftM table q filt lim,
        rowMatchesSubstring (py_strip q) r = true) ∧
    (∀ (ft : Bool) (ftM : String → DocRow → Bool) (table : List DocRow) (q : String)
        (filt : Option String) (lim : Nat),
      List.Pairwise (fun a b => pubDateDesc a b = true) (query_mysql ft ftM table q filt lim)) ∧
    (∀ (ft : Bool) (ftM : String → DocRow → Bool) (table : List DocRow) (q : String)
        (filt : Option String) (lim : Nat),
      (query_mysql ft ftM table q filt lim).length ≤ lim) ∧
    (∀ (ftM : String → DocRow → Bool) (table : List DocRow) (q : String)
        (filt : Option String) (lim : Nat),
      py_strip q ≠ "" →
      (table.filter (fun r => rowMatchesFallback (py_strip q) r && agencyCond filt r)).length ≤ lim →
      ∀ r ∈ table, rowMatchesFallback (py_strip q) r = true → agencyCond filt r = true →
        r ∈ query_mysql false ftM table q filt lim) := by
  refine ⟨?_, ?_, ?_, ?_⟩
  · intro ftM table q filt lim hq hpl r hr
    have hqb : (py_strip q != "") = true := by simpa [bne_iff_ne] using hq
    simp only [query_mysql, hqb, Bool.and_false, Bool.false_eq_true, if_false, if_true] at hr
    have hr2 : r ∈ (table.filter
        (fun r => rowMatchesFallback (py_strip q) r && agencyCond filt r)).mergeSort pubDateDesc :=
      (List.take_sublist lim _).subset hr
    have hr3 := (List.mergeSort_perm _ pubDateDesc).subset hr2
    have hfb := ((Bool.and_eq_true _ _).mp (List.mem_filter.mp hr3).2).1
    rwa [rowMatchesFallback_plain _ _ hpl] at hfb
  · intro ft ftM table q filt lim
    simp only [query_mysql]
    exact List.Pairwise.sublist (List.take_sublist lim _)
      (List.sorted_mergeSort pubDateDesc_trans pubDateDesc_total _)
  · intro ft ftM table q filt lim
    simp only [query_mysql]
    exact List.length_take_le lim _
  · intro ftM table q filt lim hq hlen r hmem hmatch hcond
    have hqb : (py_strip q != "") = true := by simpa [bne_iff_ne] using hq
    simp only [query_mysql, hqb, Bool.and_false, Bool.false_eq_true, if_false, if_true]
    have hperm := List.mergeSort_perm
      (table.filter (fun r => rowMatchesFallback (py_strip q) r && agencyCond filt r)) pubDateDesc
    have hlen2 : ((table.filter
        (fun r => rowMatchesFallback (py_strip q) r && agencyCond filt r)).mergeSort
          pubDateDesc).length ≤ lim := by
      rw [hperm.length_eq]; exact hlen
    rw [List.take_of_length_le hlen2]
    exact hperm.mem_iff.mpr (List.mem_filter.mpr ⟨hmem, by rw [hmatch, hcond]; rfl⟩)

/-- A stored row whose title contains "Pesticide". -/
def c5_rowA : DocRow :=
  ⟨"A", none, some "The Pesticide Act", none, none, some (2024, 5, 1), none, none, none,
    none, none, none, none, none, none, none, none, none, "", "hA", 0⟩

/-- A stored row matching the query nowhere. -/
def c5_rowB : DocRow :=
  ⟨"B", none, some "Other rule", none, none, some (2024, 6, 1), none, none, none,
    none, none, none, none, none, none, none, none, none, "", "hB", 0⟩

/-- Witness for C5: on a two-row store with no fulltext index, querying
"pesticide" (metacharacter-free) returns the row whose title contains it,
and that returned row satisfies the substring condition. -/
theorem query_mysql_fallback_correct_witness :
    (rowMatchesSubstring (py_strip "pesticide") c5_rowA = true) ∧
      c5_rowA ∈ query_mysql false (fun _ _ => false) [c5_rowA, c5_rowB] "pesticide" none 5 := by
  have hmem : c5_rowA ∈ query_mysql false (fun _ _ => false) [c5_rowA, c5_rowB] "pesticide" none 5 :=
    query_mysql_fallback_correct.2.2.2 (fun _ _ => false) [c5_rowA, c5_rowB] "pesticide" none 5
      (by decide) (by decide) c5_rowA (by simp) rfl rfl
  exact ⟨query_mysql_fallback_correct.1 (fun _ _ => false) [c5_rowA, c5_rowB] "pesticide" none 5
    (by decide) (by decide) c5_rowA hmem, hmem⟩

unseal List.merge List.mergeSort in
/-- Counterexample to C5 as stated: in fallback mode the query `%` — which
the code interpolates unescaped into the LIKE pattern `%%%` — returns a
stored row even though no searchable column of that row contains `%` as a
substring, so "returns only documents containing the query case-
insensitively" is violated by the program. -/
theorem query_mysql_wildcard_counterexample :
    query_mysql false (fun _ _ => false) [c5_rowB] "%" none 5 = [c5_rowB] ∧
      rowMatchesSubstring "%" c5_rowB = false :=
  ⟨rfl, by decide⟩

/-! ## C6 — intent gating thresholds; C10 — repeated-token asymmetry -/

/-- When the (stripped) input is non-empty and matches no command prefix,
`chat` hands the lowercased input to the overlap heuristic. -/
theorem chat_noncommand (meta : HelpMeta) (message : String)
    (h1 : py_strip message ≠ "")
    (h2 : matchesCmd (py_strip (py_lower (py_strip message))) = false) :
    chat meta message = chatHeuristic meta (py_strip (py_lower (py_strip message))) := by
  rw [chat]
  simp [h1, h2]

/-- The heuristic's acceptance condition, in the spec's threshold terms:
overlap ratio at least 0.33 for at most two (raw) tokens, at least 0.18 for
more. -/
def gateAccept (meta : HelpMeta) (toks : List String) : Prop :=
  (toks.length ≤ 2 ∧ overlap_ratio meta toks ≥ 33 / 100) ∨
    (2 < toks.length ∧ overlap_ratio meta toks ≥ 18 / 100)

theorem chatHeuristic_iff (meta : HelpMeta) (lower : String) (toks : List String)
    (ht : tokenize lower = toks) (hne : toks ≠ []) :
    (chatHeuristic meta lower = .runAgent lower none 25 ↔ gateAccept meta toks) ∧
    (chatHeuristic meta lower = .refusal ↔ ¬ gateAccept meta toks) := by
  have h33 : ratio_ge meta toks 33 = true ↔ overlap_ratio meta toks ≥ 33 / 100 := by
    simpa using ratio_ge_iff meta toks 33
  have h18 : ratio_ge meta toks 18 = true ↔ overlap_ratio meta toks ≥ 18 / 100 := by
    simpa using ratio_ge_iff meta toks 18
  have hie : toks.isEmpty = false := by simpa [List.isEmpty_iff] using hne
  simp only [chatHeuristic, ht, hie, Bool.false_eq_true, if_false]
  by_cases hA : toks.length ≤ 2 ∧ ratio_ge meta toks 33 = true
  · have hg : gateAccept meta toks := Or.inl ⟨hA.1, h33.mp hA.2⟩
    rw [if_pos hA]
    exact ⟨iff_of_true rfl hg, iff_of_false (by simp) (fun hng => hng hg)⟩
  · rw [if_neg hA]
    by_cases hB : 2 < toks.length ∧ ratio_ge meta toks 18 = true
    · have hg : gateAccept meta toks := Or.inr ⟨hB.1, h18.mp hB.2⟩
      rw [if_pos hB]
      exact ⟨iff_of_true rfl hg, iff_of_false (by simp) (fun hng => hng hg)⟩
    · have hng : ¬ gateAccept meta toks := by
        intro hg
        rcases hg with ⟨hl, hr⟩ | ⟨hl, hr⟩
        · exact hA ⟨hl, h33.mpr hr⟩
        · exact hB ⟨hl, h18.mpr hr⟩
      rw [if_neg hB]
      exact ⟨iff_of_false (by simp) hng, iff_of_true rfl hng⟩

/-- C6: for a non-command free-text input, `chat` accepts it as a search
query (delegating the whole lowercased input to `run`) iff its
domain-overlap ratio meets the branch threshold — ratio ≥ 0.33 when the
input has ≤ 2 tokens, ratio ≥ 0.18 when it has > 2 tokens — and otherwise
returns the fixed refusal message; an input with a recognized command
prefix such as "search pesticide" dispatches to search regardless of
overlap, and "hello" with zero domain overlap gets the refusal. -/
theorem chat_intent_gate :
    (∀ (meta : HelpMeta) (message : String) (toks : List String),
      py_strip message ≠ "" →
      matchesCmd (py_strip (py_lower (py_strip message))) = false →
      tokenize (py_strip (py_lower (py_strip message))) = toks → toks ≠ [] →
      ((chat meta message = .runAgent (py_strip (py_lower (py_strip message))) none 25 ↔
          gateAccept meta toks) ∧
       (chat meta message = .refusal ↔ ¬ gateAccept meta toks))) ∧
    (∀ meta : HelpMeta, chat meta "search pesticide" = .runAgent "pesticide" none 25) ∧
    (∀ meta : HelpMeta, "hello" ∉ domain_tokens meta → chat meta "hello" = .refusal) := by
  refine ⟨?_, ?_, ?_⟩
  · intro meta message toks h1 h2 ht hne
    rw [chat_noncommand meta message h1 h2]
    exact chatHeuristic_iff meta _ toks ht hne
  · intro meta
    rfl
  · intro meta h
    have hc : (domain_tokens meta).contains "hello" = false := by simpa using h
    have hnc : chat meta "hello" = chatHeuristic meta "hello" :=
      chat_noncommand meta "hello" (by decide) (by decide)
    have hov : overlap_tokens meta ["hello"] = [] := by
      simp [overlap_tokens, hc, h]
    have hr : overlap_ratio meta ["hello"] = 0 := by
      simp [overlap_ratio, hov]
    rw [hnc]
    refine ((chatHeuristic_iff meta "hello" ["hello"] rfl (by simp)).2).mpr ?_
    intro hg
    rcases hg with ⟨_, hge⟩ | ⟨hlt, _⟩
    · rw [hr] at hge
      norm_num at hge
    · simp at hlt

/-- Witness for C6: a three-token input with a single domain keyword
(ratio 1/3 ≥ 0.18) is accepted by the gate, and "hello" against an empty
vocabulary is refused. -/
theorem chat_intent_gate_witness :
    gateAccept ⟨["pesticide"], [], []⟩ ["pesticide", "rules", "apply"] ∧
      chat ⟨[], [], []⟩ "hello" = .refusal :=
  ⟨((chat_intent_gate.1 ⟨["pesticide"], [], []⟩ "pesticide rules apply"
      ["pesticide", "rules", "apply"] (by decide) (by decide) (by decide)
      (by decide)).1).mp (by decide),
   chat_intent_gate.2.2 ⟨[], [], []⟩ (by decide)⟩

theorem dedup_replicate_of_three_le (k : Nat) (h : 3 ≤ k) (w : String) :
    (List.replicate k w).dedup = [w] := by
  induction k with
  | zero => omega
  | succ n ih =>
    rcases Nat.lt_or_ge n 3 with hn | hn
    · interval_cases n
      · omega
      · omega
      · simp [List.dedup_cons_of_mem, List.dedup_cons_of_not_mem]
    · rw [List.replicate_succ, List.dedup_cons_of_mem (by simp; omega)]
      exact ih (by omega)

/-- C10 (implicit): `chat` selects the threshold branch by the raw token
count (repetitions included) but computes the overlap ratio over distinct
tokens; so an input whose tokens are one domain word repeated k ≥ 3 times
takes the > 2-token branch (threshold 0.18) with overlap ratio 1 and is
accepted — repetition changes the branch without changing the ratio. -/
theorem chat_repeated_token_branch :
    ∀ (meta : HelpMeta) (message : String) (w : String) (k : Nat),
      py_strip message ≠ "" →
      matchesCmd (py_strip (py_lower (py_strip message))) = false →
      tokenize (py_strip (py_lower (py_strip message))) = List.replicate k w →
      3 ≤ k → w ∈ domain_tokens meta →
      chat meta message = .runAgent (py_strip (py_lower (py_strip message))) none 25 ∧
      (List.replicate k w).length = k ∧ 2 < k ∧
      (List.replicate k w).dedup = [w] ∧
      overlap_ratio meta (List.replicate k w) = 1 := by
  intro meta message w k h1 h2 ht hk hw
  have hded : (List.replicate k w).dedup = [w] := dedup_replicate_of_three_le k hk w
  have hcont : (domain_tokens meta).contains w = true := by simpa using hw
  have hov : overlap_tokens meta (List.replicate k w) = [w] := by
    simp [overlap_tokens, hded, hcont, hw]
  have hr : overlap_ratio meta (List.replicate k w) = 1 := by
    simp [overlap_ratio, hov, hded]
  have hlen : (List.replicate k w).length = k := List.length_replicate k w
  have hne : List.replicate k w ≠ [] := by
    intro hcontra
    have := congrArg List.length hcontra
    simp [hlen] at this
    omega
  refine ⟨?_, hlen, by omega, hded, hr⟩
  rw [chat_noncommand meta message h1 h2]
  refine ((chatHeuristic_iff meta _ (List.replicate k w) ht hne).1).mpr ?_
  exact Or.inr ⟨by rw [hlen]; omega, by rw [hr]; norm_num⟩

/-- Witness for C10: "pesticide pesticide pesticide" (one domain word,
three raw tokens) is accepted through the > 2-token branch with ratio 1. -/
theorem chat_repeated_token_branch_witness :
    chat ⟨["pesticide"], [], []⟩ "pesticide pesticide pesticide" =
      .runAgent (py_strip (py_lower (py_strip "pesticide pesticide pesticide"))) none 25 ∧
    (List.replicate 3 "pesticide").length = 3 ∧ 2 < 3 ∧
    (List.replicate 3 "pesticide").dedup = ["pesticide"] ∧
    overlap_ratio ⟨["pesticide"], [], []⟩ (List.replicate 3 "pesticide") = 1 :=
  chat_repeated_token_branch ⟨["pesticide"], [], []⟩ "pesticide pesticide pesticide"
    "pesticide" 3 (by decide) (by decide) (by decide) (by decide) (by decide)

/-! ## Persistence lemmas (C1, C8, C9) -/

theorem find?_map_replace (tbl : List DocRow) (row : DocRow) (n : String) (hn : row.id = n)
    (hex : tbl.any (fun r => r.id == row.id) = true) :
    (tbl.map (fun r => if r.id == row.id then row else r)).find? (fun r => r.id == n) =
      some row := by
  induction tbl with
  | nil => simp at hex
  | cons r rs ih =>
    simp only [List.map_cons, List.find?_cons]
    cases hr : (r.id == row.id) with
    | true =>
      have hrow : (row.id == n) = true := by simp [hn]
      rw [if_pos rfl, hrow]
    | false =>
      have hrn : (r.id == n) = false := by
        simp only [beq_eq_false_iff_ne] at hr ⊢
        intro hcon
        exact hr (hcon.trans hn.symm)
      have hex2 : rs.any (fun r => r.id == row.id) = true := by
        simpa [hr] using hex
      rw [if_neg (by simp), hrn]
      exact ih hex2

theorem find?_map_replace_ne (tbl : List DocRow) (row : DocRow) (n : String)
    (hn : row.id ≠ n) :
    (tbl.map (fun r => if r.id == row.id then row else r)).find? (fun r => r.id == n) =
      tbl.find? (fun r => r.id == n) := by
  induction tbl with
  | nil => rfl
  | cons r rs ih =>
    simp only [List.map_cons, List.find?_cons]
    cases hr : (r.id == row.id) with
    | true =>
      have hrow : (row.id == n) = false := by simpa using hn
      have hre : r.id = row.id := by simpa using hr
      have hrn : (r.id == n) = false := by simp [hre, hrow]
      rw [if_pos rfl, hrow, hrn]
      exact ih
    | false =>
      rw [if_neg (by simp)]
      cases hrn : (r.id == n)
      · exact ih
      · rfl

theorem find?_upsert_self (tbl : List DocRow) (row : DocRow) (n : String) (hn : row.id = n) :
    (upsertDocRow tbl row).find? (fun r => r.id == n) = some row := by
  rw [upsertDocRow]
  by_cases hex : tbl.any (fun r => r.id == row.id) = true
  · rw [if_pos hex]
    exact find?_map_replace tbl row n hn hex
  · rw [if_neg hex]
    rw [List.find?_append]
    have hnone : tbl.find? (fun r => r.id == n) = none := by
      rw [List.find?_eq_none]
      intro r hr hcon
      apply hex
      rw [List.any_eq_true]
      refine ⟨r, hr, ?_⟩
      have : r.id = n := by simpa using hcon
      simp [this, hn]
    have hrow : (row.id == n) = true := by simp [hn]
    simp [hnone, List.find?_cons, hrow, Option.or]

theorem find?_upsert_ne (tbl : List DocRow) (row : DocRow) (n : String) (hn : row.id ≠ n) :
    (upsertDocRow tbl row).find? (fun r => r.id == n) = tbl.find? (fun r => r.id == n) := by
  rw [upsertDocRow]
  by_cases hex : tbl.any (fun r => r.id == row.id) = true
  · rw [if_pos hex]
    exact find?_map_replace_ne tbl row n hn
  · rw [if_neg hex]
    rw [List.find?_append]
    have hrow : (row.id == n) = false := by simpa using hn
    cases h : tbl.find? (fun r => r.id == n) <;>
      simp [h, List.find?_cons, hrow, Option.or]

/-- After processing a document with a resolvable number (no per-document
failure), the stored digest for its id is its recomputed digest — whether
the branch skipped (it already matched) or upserted. -/
theorem storedHash_process_one_self (af : String → String → Bool) (now : Nat)
    (st : ProcResult) (doc : Record) (dn : JVal) (hres : resolved doc = some dn) :
    storedHash (process_one (fun _ => false) af now st doc).db (pyStr dn) =
      some (compute_content_hash doc) := by
  rw [process_one]
  simp only [Bool.false_eq_true, if_false, hres]
  by_cases hsk : storedHash st.db (pyStr dn) = some (compute_content_hash doc)
  · rw [if_pos hsk]
    exact hsk
  · rw [if_neg hsk]
    show ((upsertDocRow st.db.documents
        (buildDocRow doc dn (compute_content_hash doc) now)).find?
          (fun r => r.id == pyStr dn)).map (·.content_hash) = _
    rw [find?_upsert_self st.db.documents
      (buildDocRow doc dn (compute_content_hash doc) now) (pyStr dn) rfl]
    rfl

/-- Processing a document whose id (if any) differs from `n` leaves the
stored digest at `n` unchanged. -/
theorem storedHash_process_one_other (failDoc : Record → Bool)
    (af : String → String → Bool) (now : Nat) (st : ProcResult) (doc : Record) (n : String)
    (hother : ∀ dn, resolved doc = some dn → pyStr dn ≠ n) :
    storedHash (process_one failDoc af now st doc).db n = storedHash st.db n := by
  rw [process_one]
  by_cases hf : failDoc doc = true
  · rw [if_pos hf]
  · rw [if_neg hf]
    cases hres : resolved doc with
    | none => rfl
    | some dn =>
      dsimp only
      by_cases hsk : storedHash st.db (pyStr dn) = some (compute_content_hash doc)
      · rw [if_pos hsk]
      · rw [if_neg hsk]
        show ((upsertDocRow st.db.documents
            (buildDocRow doc dn (compute_content_hash doc) now)).find?
              (fun r => r.id == n)).map (·.content_hash) = _
        rw [find?_upsert_ne st.db.documents
          (buildDocRow doc dn (compute_content_hash doc) now) n (hother dn hres)]
        rfl

/-- An unchanged document (stored digest equals recomputed digest) is a
complete no-op: no row written, no counter incremented. -/
theorem process_one_unchanged (af : String → String → Bool) (now : Nat)
    (st : ProcResult) (doc : Record) (dn : JVal) (hres : resolved doc = some dn)
    (hsk : storedHash st.db (pyStr dn) = some (compute_content_hash doc)) :
    process_one (fun _ => false) af now st doc = st := by
  rw [process_one]
  simp only [Bool.false_eq_true, if_false, hres]
  rw [if_pos hsk]

/-- A document on which per-document processing raises is caught and counted
as skipped; nothing else changes. -/
theorem process_one_fail (failDoc : Record → Bool) (af : String → String → Bool)
    (now : Nat) (st : ProcResult) (doc : Record) (hf : failDoc doc = true) :
    process_one failDoc af now st doc = { st with skipped := st.skipped + 1 } := by
  rw [process_one, if_pos hf]

/-- A document with no resolvable number is counted as skipped; nothing else
changes. -/
theorem process_one_noid (failDoc : Record → Bool) (af : String → String → Bool)
    (now : Nat) (st : ProcResult) (doc : Record) (hf : failDoc doc = false)
    (hres : resolved doc = none) :
    process_one failDoc af now st doc = { st with skipped := st.skipped + 1 } := by
  rw [process_one, if_neg (by simp [hf]), hres]

theorem storedHash_fold_other (failDoc : Record → Bool) (af : String → String → Bool)
    (now : Nat) (docs : List Record) :
    ∀ (st : ProcResult) (n : String),
      (∀ d ∈ docs, ∀ dn, resolved d = some dn → pyStr dn ≠ n) →
      storedHash (docs.foldl (process_one failDoc af now) st).db n = storedHash st.db n := by
  induction docs with
  | nil => intro st n _; rfl
  | cons x xs ih =>
    intro st n h
    rw [List.foldl_cons]
    rw [ih _ n (fun d hd => h d (List.mem_cons_of_mem x hd))]
    exact storedHash_process_one_other failDoc af now st x n (h x (List.mem_cons_self x xs))

/-- After a full (failure-free) run of the batch, the stored digest for
every resolvable document of the batch equals that document's recomputed
digest, provided documents sharing a (SQL) id have equal digests. -/
theorem storedHash_fold_set (af : String → String → Bool) (now : Nat) (docs : List Record) :
    ∀ st : ProcResult,
      (∀ d1 ∈ docs, ∀ d2 ∈ docs, ∀ n1 n2, resolved d1 = some n1 → resolved d2 = some n2 →
        pyStr n1 = pyStr n2 → compute_content_hash d1 = compute_content_hash d2) →
      ∀ d ∈ docs, ∀ dn, resolved d = some dn →
        storedHash (docs.foldl (process_one (fun _ => false) af now) st).db (pyStr dn) =
          some (compute_content_hash d) := by
  induction docs with
  | nil =>
    intro st _ d hd
    simp at hd
  | cons x xs ih =>
    intro st hcons d hd dn hdn
    rw [List.foldl_cons]
    have hconsxs : ∀ d1 ∈ xs, ∀ d2 ∈ xs, ∀ n1 n2, resolved d1 = some n1 →
        resolved d2 = some n2 → pyStr n1 = pyStr n2 →
        compute_content_hash d1 = compute_content_hash d2 :=
      fun d1 h1 d2 h2 => hcons d1 (List.mem_cons_of_mem x h1) d2 (List.mem_cons_of_mem x h2)
    rcases List.mem_cons.mp hd with rfl | hdx
    · by_cases hex : ∃ d' ∈ xs, ∃ n', resolved d' = some n' ∧ pyStr n' = pyStr dn
      · obtain ⟨d', hd', n', hn', hpy⟩ := hex
        have hres := ih (process_one (fun _ => false) af now st d) hconsxs d' hd' n' hn'
        rw [hpy] at hres
        rw [hres]
        rw [hcons d' (List.mem_cons_of_mem d hd') d (List.mem_cons_self d xs) n' dn hn' hdn hpy]
      · push_neg at hex
        rw [storedHash_fold_other _ af now xs _ (pyStr dn)
          (fun d' hd' n' hn' => hex d' hd' n' hn')]
        exact storedHash_process_one_self af now st d dn hdn
    · exact ih _ hconsxs d hdx dn hdn

/-- A pass over a batch whose every resolvable document already has its
digest stored is a pure no-op on the store and on the processed/written
counters; only unresolvable documents bump the skipped counter. -/
theorem process_fold_second_pass (af : String → String → Bool) (now : Nat)
    (docs : List Record) :
    ∀ st : ProcResult,
      (∀ d ∈ docs, ∀ dn, resolved d = some dn →
        storedHash st.db (pyStr dn) = some (compute_content_hash d)) →
      docs.foldl (process_one (fun _ => false) af now) st =
        { st with skipped := st.skipped + docs.countP (fun d => (resolved d).isNone) } := by
  induction docs with
  | nil => intro st _; simp
  | cons x xs ih =>
    intro st h
    rw [List.foldl_cons]
    cases hres : resolved x with
    | none =>
      rw [process_one_noid _ af now st x rfl hres]
      rw [ih { st with skipped := st.skipped + 1 }
        (fun d hd dn hdn => h d (List.mem_cons_of_mem x hd) dn hdn)]
      simp only [List.countP_cons, hres, Option.isNone_none, if_pos]
      congr 1
      omega
    | some dn =>
      rw [process_one_unchanged af now st x dn hres (h x (List.mem_cons_self x xs) dn hres)]
      rw [ih st (fun d hd dn2 hdn2 => h d (List.mem_cons_of_mem x hd) dn2 hdn2)]
      simp [List.countP_cons, hres]

/-- The skipped counter of a batch run counts exactly the documents that
raised a per-document error or had no resolvable number — digest-match
skips contribute to no counter. -/
theorem process_fold_skipped (failDoc : Record → Bool) (af : String → String → Bool)
    (now : Nat) (docs : List Record) :
    ∀ st : ProcResult,
      (docs.foldl (process_one failDoc af now) st).skipped =
        st.skipped + docs.countP (fun d => failDoc d || (resolved d).isNone) := by
  induction docs with
  | nil => intro st; simp
  | cons x xs ih =>
    intro st
    rw [List.foldl_cons, ih, List.countP_cons]
    have hstep : (process_one failDoc af now st x).skipped =
        st.skipped + (if (failDoc x || (resolved x).isNone) = true then 1 else 0) := by
      by_cases hf : failDoc x = true
      · rw [process_one_fail failDoc af now st x hf]
        simp [hf]
      · have hf2 : failDoc x = false := by simpa using hf
        cases hres : resolved x with
        | none =>
          rw [process_one_noid failDoc af now st x hf2 hres]
          simp [hf2, hres]
        | some dn =>
          rw [process_one, if_neg (by simp [hf2]), hres]
          dsimp only
          by_cases hsk : storedHash st.db (pyStr dn) = some (compute_content_hash x)
          · rw [if_pos hsk]
            simp [hf2, hres]
          · rw [if_neg hsk]
            simp [hf2, hres]
    rw [hstep]
    omega

/-- One step of the loop run under two agency-failure oracles, from two
states agreeing on the document table and the two counters, yields states
that again agree there: agency-row failures touch only the agencies table
and the write count. -/
theorem process_one_af_independent (failDoc : Record → Bool)
    (af1 af2 : String → String → Bool) (now : Nat) (doc : Record) :
    ∀ st1 st2 : ProcResult,
      st1.db.documents = st2.db.documents → st1.processed = st2.processed →
      st1.skipped = st2.skipped →
      (process_one failDoc af1 now st1 doc).db.documents =
          (process_one failDoc af2 now st2 doc).db.documents ∧
        (process_one failDoc af1 now st1 doc).processed =
          (process_one failDoc af2 now st2 doc).processed ∧
        (process_one failDoc af1 now st1 doc).skipped =
          (process_one failDoc af2 now st2 doc).skipped := by
  intro st1 st2 hdocs hproc hskip
  by_cases hf : failDoc doc = true
  · rw [process_one_fail failDoc af1 now st1 doc hf, process_one_fail failDoc af2 now st2 doc hf]
    exact ⟨hdocs, hproc, by simp [hskip]⟩
  · have hf2 : failDoc doc = false := by simpa using hf
    cases hres : resolved doc with
    | none =>
      rw [process_one_noid failDoc af1 now st1 doc hf2 hres,
        process_one_noid failDoc af2 now st2 doc hf2 hres]
      exact ⟨hdocs, hproc, by simp [hskip]⟩
    | some dn =>
      rw [process_one, process_one, if_neg (by simp [hf2]), if_neg (by simp [hf2]), hres]
      dsimp only
      have hsame : storedHash st1.db (pyStr dn) = storedHash st2.db (pyStr dn) := by
        rw [storedHash, storedHash, hdocs]
      by_cases hsk : storedHash st1.db (pyStr dn) = some (compute_content_hash doc)
      · rw [if_pos hsk, if_pos (hsame ▸ hsk)]
        exact ⟨hdocs, hproc, hskip⟩
      · rw [if_neg hsk, if_neg (fun hcon => hsk (hsame.trans hcon))]
        refine ⟨?_, ?_, ?_⟩ <;> dsimp only
        · rw [hdocs]
        · rw [hproc]
        · exact hskip

/-- Whole-batch version of `process_one_af_independent`. -/
theorem process_fold_af_independent (failDoc : Record → Bool)
    (af1 af2 : String → String → Bool) (now : Nat) (docs : List Record) :
    ∀ st1 st2 : ProcResult,
      st1.db.documents = st2.db.documents → st1.processed = st2.processed →
      st1.skipped = st2.skipped →
      (docs.foldl (process_one failDoc af1 now) st1).db.documents =
          (docs.foldl (process_one failDoc af2 now) st2).db.documents ∧
        (docs.foldl (process_one failDoc af1 now) st1).processed =
          (docs.foldl (process_one failDoc af2 now) st2).processed ∧
        (docs.foldl (process_one failDoc af1 now) st1).skipped =
          (docs.foldl (process_one failDoc af2 now) st2).skipped := by
  induction docs with
  | nil => intro st1 st2 hdocs hproc hskip; exact ⟨hdocs, hproc, hskip⟩
  | cons x xs ih =>
    intro st1 st2 hdocs hproc hskip
    rw [List.foldl_cons, List.foldl_cons]
    obtain ⟨h1, h2, h3⟩ := process_one_af_independent failDoc af1 af2 now x st1 st2 hdocs hproc hskip
    exact ih _ _ h1 h2 h3

/-! ## C1 — persistence idempotence -/

/-- A document with number "A" and title "x". -/
def c1_doc_v1 : Record := [("document_number", .jstr "A"), ("title", .jstr "x")]

/-- A byte-different document with the same number "A". -/
def c1_doc_v2 : Record := [("document_number", .jstr "A"), ("title", .jstr "y")]

unseal List.merge List.mergeSort in
/-- Counterexample to C1 as stated: for a batch containing two
different-content documents that share one id (possible when upstream
paging is inconsistent, which the fetch stage does not deduplicate), the
second byte-identical run is **not** a no-op — each of the two documents
sees a stored digest left by the other and re-upserts, so the second pass
writes 2 rows rather than 0. -/
theorem process_documents_idempotent_counterexample :
    ¬ ((process_documents
        (process_documents ⟨[], []⟩ [c1_doc_v1, c1_doc_v2]
          (fun _ => false) (fun _ _ => false) 0).db
        [c1_doc_v1, c1_doc_v2] (fun _ => false) (fun _ _ => false) 1).writes = 0) := by
  decide

/-- C1 (amended): for every batch in which any two documents resolving to
the same SQL id have equal content digests (in particular, any batch
without duplicated document numbers), running `process_documents` a second
time on the byte-identical batch after the first run committed changes
zero rows: every document's stored digest equals the recomputed digest, so
the per-document branch skips the upsert and the agency inserts — the
store is unchanged, no row is written, nothing is processed, and only
documents without a document number are counted skipped. This holds for
any agency-failure oracles and timestamps on the two runs. -/
theorem process_documents_idempotent (db : DB) (docs : List Record)
    (af1 af2 : String → String → Bool) (now1 now2 : Nat)
    (hcons : ∀ d1 ∈ docs, ∀ d2 ∈ docs, ∀ n1 n2, resolved d1 = some n1 →
      resolved d2 = some n2 → pyStr n1 = pyStr n2 →
      compute_content_hash d1 = compute_content_hash d2) :
    process_documents (process_documents db docs (fun _ => false) af1 now1).db docs
        (fun _ => false) af2 now2 =
      { db := (process_documents db docs (fun _ => false) af1 now1).db,
        processed := 0,
        skipped := docs.countP (fun d => (resolved d).isNone),
        writes := 0 } := by
  have h2 : ∀ d ∈ docs, ∀ dn, resolved d = some dn →
      storedHash (process_documents db docs (fun _ => false) af1 now1).db (pyStr dn) =
        some (compute_content_hash d) := by
    intro d hd dn hdn
    rw [process_documents]
    exact storedHash_fold_set af1 now1 docs ⟨db, 0, 0, 0⟩ hcons d hd dn hdn
  show docs.foldl (process_one (fun _ => false) af2 now2)
      ⟨(process_documents db docs (fun _ => false) af1 now1).db, 0, 0, 0⟩ = _
  rw [process_fold_second_pass af2 now2 docs
    ⟨(process_documents db docs (fun _ => false) af1 now1).db, 0, 0, 0⟩
    (fun d hd dn hdn => h2 d hd dn hdn)]
  simp

/-- Witness for C1 (amended) on a singleton batch: reprocessing it is a
complete no-op. -/
theorem process_documents_idempotent_witness :
    process_documents
        (process_documents ⟨[], []⟩ [c1_doc_v1] (fun _ => false) (fun _ _ => false) 0).db
        [c1_doc_v1] (fun _ => false) (fun _ _ => false) 1 =
      { db := (process_documents ⟨[], []⟩ [c1_doc_v1]
          (fun _ => false) (fun _ _ => false) 0).db,
        processed := 0, skipped := 0, writes := 0 } :=
  process_documents_idempotent ⟨[], []⟩ [c1_doc_v1] (fun _ _ => false) (fun _ _ => false) 0 1
    (by
      intro d1 h1 d2 h2 n1 n2 e1 e2 _
      simp only [List.mem_singleton] at h1 h2
      subst h1
      subst h2
      rfl)

/-! ## C8 — agency normalization -/

/-- The claimed document: agencies `[{"name":"EPA"},{"name":"FDA"}]`. -/
def c8_doc : Record :=
  [("document_number", .jstr "D-1"), ("title", .jstr "t"),
   ("agencies", .jarr (JList.ofList
     [.jobj (JPairs.ofList [("name", .jstr "EPA")]),
      .jobj (JPairs.ofList [("name", .jstr "FDA")])]))]

unseal List.merge List.mergeSort in
/-- C8: processing a document with agencies `[{"name":"EPA"},{"name":"FDA"}]`
yields exactly 2 rows in the agencies relation for that document id (one
per distinct (document id, name) pair, via INSERT IGNORE against the
unique key); reprocessing the identical document is a no-op (no duplicate
rows, zero writes); and a failure of any individual agency-row insert is
swallowed — for every agency-failure oracle the document table and the
processed/skipped counters are the same as under no agency failures. -/
theorem process_documents_agency_normalization :
    (((process_documents ⟨[], []⟩ [c8_doc] (fun _ => false) (fun _ _ => false) 0).db.agencies.filter
        (fun a => a.document_id == "D-1")).length = 2) ∧
    (process_documents
        (process_documents ⟨[], []⟩ [c8_doc] (fun _ => false) (fun _ _ => false) 0).db
        [c8_doc] (fun _ => false) (fun _ _ => false) 1 =
      { db := (process_documents ⟨[], []⟩ [c8_doc] (fun _ => false) (fun _ _ => false) 0).db,
        processed := 0, skipped := 0, writes := 0 }) ∧
    (∀ (db : DB) (docs : List Record) (failDoc : Record → Bool)
        (af : String → String → Bool) (now : Nat),
      (process_documents db docs failDoc af now).db.documents =
          (process_documents db docs failDoc (fun _ _ => false) now).db.documents ∧
        (process_documents db docs failDoc af now).processed =
          (process_documents db docs failDoc (fun _ _ => false) now).processed ∧
        (process_documents db docs failDoc af now).skipped =
          (process_documents db docs failDoc (fun _ _ => false) now).skipped) := by
  refine ⟨by decide, ?_, ?_⟩
  · have h2 : ∀ d ∈ [c8_doc], ∀ dn, resolved d = some dn →
        storedHash (process_documents ⟨[], []⟩ [c8_doc]
            (fun _ => false) (fun _ _ => false) 0).db (pyStr dn) =
          some (compute_content_hash d) := by
      intro d hd dn hdn
      simp only [List.mem_singleton] at hd
      subst hd
      rw [show resolved c8_doc = some (.jstr "D-1") from rfl] at hdn
      cases hdn
      decide
    show [c8_doc].foldl (process_one (fun _ => false) (fun _ _ => false) 1)
        ⟨(process_documents ⟨[], []⟩ [c8_doc] (fun _ => false) (fun _ _ => false) 0).db,
          0, 0, 0⟩ = _
    rw [process_fold_second_pass (fun _ _ => false) 1 [c8_doc]
      ⟨(process_documents ⟨[], []⟩ [c8_doc] (fun _ => false) (fun _ _ => false) 0).db,
        0, 0, 0⟩
      (fun d hd dn hdn => h2 d hd dn hdn)]
    congr 1
  · intro db docs failDoc af now
    exact process_fold_af_independent failDoc af (fun _ _ => false) now docs
      ⟨db, 0, 0, 0⟩ ⟨db, 0, 0, 0⟩ rfl rfl rfl

/-! ## C9 — skip accounting for unchanged documents -/

/-- C9: in `process_documents`, (1) a document whose recomputed digest
equals the stored digest for its id is skipped with no write and no
counter change; (2) a document whose per-document processing raises is
counted in `skipped_count`; and (3) the `skipped_count` reported at the
end of a batch counts exactly the failing/number-less documents — never
the digest-match skips, which are therefore distinguishable (they are the
batch remainder beyond `processed + skipped`). -/
theorem process_documents_skip_accounting :
    (∀ (af : String → String → Bool) (now : Nat) (st : ProcResult) (doc : Record) (dn : JVal),
      resolved doc = some dn →
      storedHash st.db (pyStr dn) = some (compute_content_hash doc) →
      process_one (fun _ => false) af now st doc = st) ∧
    (∀ (failDoc : Record → Bool) (af : String → String → Bool) (now : Nat)
        (st : ProcResult) (doc : Record),
      failDoc doc = true →
      process_one failDoc af now st doc = { st with skipped := st.skipped + 1 }) ∧
    (∀ (db : DB) (docs : List Record) (failDoc : Record → Bool)
        (af : String → String → Bool) (now : Nat),
      (process_documents db docs failDoc af now).skipped =
        docs.countP (fun d => failDoc d || (resolved d).isNone)) := by
  refine ⟨process_one_unchanged, process_one_fail, ?_⟩
  intro db docs failDoc af now
  rw [process_documents, process_fold_skipped]
  simp

/-- A document used to witness C9's conditional parts. -/
def c9_doc : Record := [("document_number", .jstr "C9"), ("title", .jstr "t")]

unseal List.merge List.mergeSort in
/-- Witness for C9: reprocessing an already-stored document leaves state
and counters untouched, and a failing document increments only the skipped
counter. -/
theorem process_documents_skip_accounting_witness :
    (process_one (fun _ => false) (fun _ _ => false) 1
        ⟨(process_documents ⟨[], []⟩ [c9_doc] (fun _ => false) (fun _ _ => false) 0).db,
          5, 7, 9⟩ c9_doc =
      ⟨(process_documents ⟨[], []⟩ [c9_doc] (fun _ => false) (fun _ _ => false) 0).db,
        5, 7, 9⟩) ∧
    (process_one (fun _ => true) (fun _ _ => false) 1 ⟨⟨[], []⟩, 0, 0, 0⟩ c9_doc =
      ⟨⟨[], []⟩, 0, 1, 0⟩) :=
  ⟨process_documents_skip_accounting.1 (fun _ _ => false) 1 _ c9_doc (JVal.jstr "C9")
      rfl (by decide),
   process_documents_skip_accounting.2.1 (fun _ => true) (fun _ _ => false) 1 _ c9_doc rfl⟩

end FedReg
